import Mathlib

/-
Verification development for the claude-sync-tool repository.

The definitions below are a shallow embedding of the merge engine
(src/core/merger.ts), the conflict resolver (src/core/conflict-resolver.ts)
and the sync orchestrator (src/core/sync-engine.ts, src/core/git-manager.ts).

Modelling conventions:
  - JavaScript structured values (the JSON data handled by the merger) are the
    inductive JsonVal.  Arrays and objects are both keyed containers with a
    kind flag, mirroring how the source treats them uniformly through
    Object.keys / `key in x` / x[key]; a JS array is a container with
    isArr = true whose keys are the decimal indices.  Numbers are modelled as
    Int (float-specific behaviour is out of scope for every claim).
  - JSON.stringify equality tests in the source are modelled by the structural
    Boolean equality beqV: for values produced by JSON.parse, stringify
    equality and structural equality coincide.
  - Filesystem and interactive effects are passed in as explicit environment
    data: file contents as Option String, stat mtimes as Option Nat, the
    inquirer answer as a function from the conflicted path to a Choice, and
    JSON.parse as a function String -> Option JsonVal (none models a thrown
    SyntaxError).  Functions that write files return the list of
    (path, content) writes they perform instead.
  - The external deepmerge npm package (used only by mergeSettings and
    applyMergeChoice) is modelled by deepmergeLib below, following the
    library's documented semantics; no theorem depends on its output.
-/

/-- A JavaScript primitive value as seen by the merger: null, booleans,
numbers and strings (`typeof x !== 'object' || x === null`). -/
inductive Prim where
  | pnull
  | pbool (b : Bool)
  | pnum (n : Int)
  | pstr (s : String)
deriving DecidableEq, Repr

/-- A structured value: a primitive leaf, or a keyed container.
`container true` is a JS array (keys are decimal indices), `container false`
is a plain object. -/
inductive JsonVal where
  | prim (p : Prim)
  | container (isArr : Bool) (entries : List (String × JsonVal))
deriving Repr

mutual
/-- Structural equality on values; models JSON.stringify string equality. -/
def beqV : JsonVal → JsonVal → Bool
  | .prim a, .prim b => a == b
  | .container a es, .container b fs => a == b && beqE es fs
  | _, _ => false
/-- Structural equality on container entry lists. -/
def beqE : List (String × JsonVal) → List (String × JsonVal) → Bool
  | [], [] => true
  | (k, v) :: rest, (k2, v2) :: rest2 => k == k2 && beqV v v2 && beqE rest rest2
  | _, _ => false
end

mutual
/-- Structural size of a value (fuel bound for the fuel-driven functions). -/
def jsize : JsonVal → Nat
  | .prim _ => 1
  | .container _ es => 1 + esize es
/-- Structural size of a container entry list. -/
def esize : List (String × JsonVal) → Nat
  | [] => 0
  | (_, v) :: rest => 1 + jsize v + esize rest
end

/-- Equality of optional values, used for the JSON.stringify comparison of
`local[key]` and `remote[key]` in mergeSettings. -/
def beqOV : Option JsonVal → Option JsonVal → Bool
  | some a, some b => beqV a b
  | none, none => true
  | _, _ => false

/-- Object.keys: the keys of a container in insertion order ([] on a primitive). -/
def keysOf : JsonVal → List String
  | .prim _ => []
  | .container _ es => es.map Prod.fst

/-- Property access x[key] (none when absent or x is a primitive). -/
def lookupVal (v : JsonVal) (k : String) : Option JsonVal :=
  match v with
  | .prim _ => none
  | .container _ es => es.lookup k

/-- The conflict strategy configuration value: 'ask' | 'local' | 'remote' |
'newest' (src/types).  `local`/`remote` are Lean keywords, hence the
constructor names localFirst / remoteFirst. -/
inductive ConflictStrategy where
  | ask
  | localFirst
  | remoteFirst
  | newest
deriving DecidableEq, Repr

/-- path.join('.') applied to the accumulated key path. -/
def joinDots : List String → String
  | [] => ""
  | [k] => k
  | k :: ks => k ++ "." ++ joinDots ks

/-- Helper for dedupFirst: drop keys already seen, keeping first occurrences. -/
def dedupAux (seen : List String) : List String → List String
  | [] => []
  | k :: ks => if k ∈ seen then dedupAux seen ks else k :: dedupAux (k :: seen) ks

/-- JS `new Set([...a, ...b])` iteration order: first occurrences, in order. -/
def dedupFirst (ks : List String) : List String := dedupAux [] ks

/-- Char-list prefix test (component of the String.prototype.includes model). -/
def startsWithChars : List Char → List Char → Bool
  | [], _ => true
  | _ :: _, [] => false
  | a :: as, b :: bs => a == b && startsWithChars as bs

/-- Char-list substring test. -/
def hasSubChars (sub : List Char) : List Char → Bool
  | [] => startsWithChars sub []
  | l@(_ :: rest) => startsWithChars sub l || hasSubChars sub rest

/-- JS s.includes(sub). -/
def hasSub (s sub : String) : Bool := hasSubChars sub.data s.data

/-- JS s.toLowerCase() (ASCII case is all the source needs). -/
def strToLower (s : String) : String := String.mk (s.data.map Char.toLower)

/-- MergeResult record of src/core/merger.ts: result is `any` in TS and is
null (`none`) when a pair is not mergeable. -/
structure MergeResult where
  result : Option JsonVal
  conflicts : List String
  merged : Bool

/-- ConflictInfo record of src/types/index.ts. -/
structure ConflictInfo where
  path : String
  localContent : String
  remoteContent : String
  baseContent : Option String := none
  resolved : Option Bool := none
deriving DecidableEq, Repr

/-- The user's answer to the interactive conflict prompt:
'local' | 'remote' | 'merge' | 'skip'. -/
inductive Choice where
  | chooseLocal
  | chooseRemote
  | chooseMerge
  | chooseSkip
deriving DecidableEq, Repr

/-- ResolveResult record of src/core/conflict-resolver.ts. -/
structure ResolveResult where
  resolved : Bool
  choice : Option Choice := none
  content : Option String := none
deriving DecidableEq, Repr

/-- SyncResult record of src/types/index.ts (the fields the claims use). -/
structure SyncResult where
  success : Bool
  message : String := ""
  pushed : Option Nat := none
  pulled : Option Nat := none
  conflicts : Option (List ConflictInfo) := none
  errors : Option (List String) := none
deriving DecidableEq, Repr

/-- Serialization of a primitive (JSON.stringify on a leaf). -/
def stringifyP : Prim → String
  | .pnull => "null"
  | .pbool true => "true"
  | .pbool false => "false"
  | .pnum n => toString n
  | .pstr s => "\"" ++ s ++ "\""

/-- Fuel-driven JSON.stringify model (whitespace/escaping abstracted; used
only to produce the text of an auto-merged file, which no claim inspects). -/
def stringifyFuel : Nat → JsonVal → String
  | 0, _ => ""
  | _ + 1, .prim p => stringifyP p
  | fuel + 1, .container true es =>
      "[" ++ String.intercalate "," (es.map (fun kv => stringifyFuel fuel kv.2)) ++ "]"
  | fuel + 1, .container false es =>
      "\x7b" ++ String.intercalate ","
        (es.map (fun kv => "\"" ++ kv.1 ++ "\":" ++ stringifyFuel fuel kv.2)) ++ "\x7d"

/-- JSON.stringify model with enough fuel for its argument. -/
def stringifyV (v : JsonVal) : String := stringifyFuel (jsize v) v

/-- Replace-or-append assignment dest[k] = v on an entry list (JS property
assignment; object keys are unique so replace-first is exact). -/
def upsertEntry : List (String × JsonVal) → String → JsonVal → List (String × JsonVal)
  | [], k, v => [(k, v)]
  | (q, w) :: rest, k, v =>
      if q = k then (q, v) :: rest else (q, w) :: upsertEntry rest k v

/-- isMergeableObject of the deepmerge package: non-null objects and arrays. -/
def isMergeableJ : JsonVal → Bool
  | .container _ _ => true
  | .prim _ => false

/-- Model of the external deepmerge npm package, fuel-driven (the fuel is
always sufficient via deepmergeRun).  arrOverride true models the
`arrayMerge: (dest, src) => src` option used by mergeSettings; false models
the default arrayMerge (concatenation, reindexed).  No theorem depends on
this function's output. -/
def deepmergeLib (arrOverride : Bool) : Nat → JsonVal → JsonVal → JsonVal
  | 0, _, source => source
  | fuel + 1, target, source =>
      match target, source with
      | .container true tes, .container true ses =>
          if arrOverride then .container true ses
          else
            .container true
              (((tes.map Prod.snd) ++ (ses.map Prod.snd)).enum.map
                (fun iv => (toString iv.1, iv.2)))
      | t, s =>
          if (match s with | .container true _ => true | _ => false) ≠
             (match t with | .container true _ => true | _ => false) then s
          else
            let dest0 := match t with | .container _ tes => tes | .prim _ => []
            let ses := match s with | .container _ ses2 => ses2 | .prim _ => []
            .container false
              (ses.foldl
                (fun dest kv =>
                  let newVal :=
                    match lookupVal t kv.1, isMergeableJ kv.2 with
                    | some tv, true => deepmergeLib arrOverride fuel tv kv.2
                    | _, _ => kv.2
                  upsertEntry dest kv.1 newVal)
                dest0)

/-- deepmerge(target, source, opts) with sufficient fuel. -/
def deepmergeRun (arrOverride : Bool) (target source : JsonVal) : JsonVal :=
  deepmergeLib arrOverride (jsize target + jsize source) target source

namespace Merger

/-- Merger.resolveConflict (src/core/merger.ts, lines 91-106): pick a side for
a conflicting leaf based on the strategy; 'newest' and 'ask' default to
remote. -/
def resolveConflict (st : ConflictStrategy) (localV remoteV : JsonVal)
    (path : List String) : JsonVal :=
  match st with
  | .localFirst => localV
  | .remoteFirst => remoteV
  | .newest => remoteV
  | .ask => remoteV

/-- Merger.isPrimitive (lines 111-113): null or not an object/array. -/
def isPrimitive : JsonVal → Bool
  | .prim _ => true
  | .container _ _ => false

mutual
/-- Merger.deepMergeWithConflicts (src/core/merger.ts, lines 40-86).  Returns
the merged value together with the list of conflict paths pushed by this call
(the source appends them to a shared accumulator array in the same order). -/
def deepMergeWithConflicts (st : ConflictStrategy) (localV remoteV : JsonVal)
    (path : List String) : JsonVal × List String :=
  match localV, remoteV with
  | .prim a, .prim b =>
      if a = b then (.prim a, [])
      else (resolveConflict st (.prim a) (.prim b) path, [joinDots path])
  | .prim a, .container k2 es2 =>
      (resolveConflict st (.prim a) (.container k2 es2) path, [joinDots path])
  | .container k1 es1, .prim b =>
      (resolveConflict st (.container k1 es1) (.prim b) path, [joinDots path])
  | .container k1 es1, .container _ es2 =>
      let ks := dedupFirst (es1.map Prod.fst ++ es2.map Prod.fst)
      let m := mergeKeys st es1 es2 path ks
      (.container k1 m.1, m.2)
termination_by (sizeOf localV + sizeOf remoteV, 0)

/-- The `for (const key of allKeys)` loop of deepMergeWithConflicts: walks the
deduplicated union of both key sets, copying one-sided keys as-is and
recursing on shared keys.  The none/none arm is unreachable from the union. -/
def mergeKeys (st : ConflictStrategy) (es1 es2 : List (String × JsonVal))
    (path : List String) : List String → List (String × JsonVal) × List String
  | [] => ([], [])
  | k :: ks =>
      match h1 : es1.lookup k, h2 : es2.lookup k with
      | none, none => mergeKeys st es1 es2 path ks
      | none, some v =>
          let t := mergeKeys st es1 es2 path ks
          ((k, v) :: t.1, t.2)
      | some v, none =>
          let t := mergeKeys st es1 es2 path ks
          ((k, v) :: t.1, t.2)
      | some v1, some v2 =>
          let m := deepMergeWithConflicts st v1 v2 (path ++ [k])
          let t := mergeKeys st es1 es2 path ks
          ((k, m.1) :: t.1, m.2 ++ t.2)
termination_by ks => (sizeOf es1 + sizeOf es2, ks.length)
decreasing_by
all_goals simp_wf
all_goals
  first
  | (apply Prod.Lex.right; simp_arith)
  | (apply Prod.Lex.left; simp_arith)
  | (apply Prod.Lex.left
     have key : ∀ (kk : String) (es : List (String × JsonVal)) (v : JsonVal),
         List.lookup kk es = some v → sizeOf v < sizeOf es := by
       intro kk es
       induction es with
       | nil => intro v hv; simp [List.lookup] at hv
       | cons e rest ih =>
           intro v hv
           simp only [List.lookup] at hv
           split at hv
           · cases hv
             rcases e with ⟨k0, v0⟩
             simp
             omega
           · have := ih v hv
             rcases e with ⟨k0, v0⟩
             simp
             omega
     have key1 := key k es1 v1 h1
     have key2 := key k es2 v2 h2
     omega)
end

/-- Merger.mergeJson (lines 26-35): two-way merge; note merged is
`conflicts.length === 0 || strategy !== 'ask'`. -/
def mergeJson (st : ConflictStrategy) (localV remoteV : JsonVal) : MergeResult :=
  let m := deepMergeWithConflicts st localV remoteV []
  { result := some m.1
    conflicts := m.2
    merged := m.2.isEmpty || decide (st ≠ ConflictStrategy.ask) }

/-- Merger.threeWayMerge (lines 234-270): whole-document change detection by
JSON.stringify comparison against base, falling back to the two-way merge
when both sides changed (merged is `conflicts.length === 0` here). -/
def threeWayMerge (st : ConflictStrategy) (base localV remoteV : JsonVal) :
    MergeResult :=
  let localChanged := !(beqV localV base)
  let remoteChanged := !(beqV remoteV base)
  if !localChanged && !remoteChanged then
    { result := some base, conflicts := [], merged := true }
  else if !localChanged then
    { result := some remoteV, conflicts := [], merged := true }
  else if !remoteChanged then
    { result := some localV, conflicts := [], merged := true }
  else
    let m := deepMergeWithConflicts st localV remoteV []
    { result := some m.1, conflicts := m.2, merged := m.2.isEmpty }

/-- The sensitive field list of Merger.mergeSettings (line 122), verbatim
including its mixed case. -/
def sensitiveFields : List String :=
  ["apiKey", "apiToken", "token", "secret", "password", "credential"]

/-- Merger.mergeSettings (lines 118-145): deepmerge with remote-wins arrays,
conflicts collected from top-level keys present in both sides with differing
serialized values, skipping keys whose lowercased name contains a sensitive
field name; merged is always true. -/
def mergeSettings (localV remoteV : JsonVal) : MergeResult :=
  let result := deepmergeRun true localV remoteV
  let conflicts := (keysOf remoteV).filter (fun key =>
    decide (key ∈ keysOf localV) &&
    !(beqOV (lookupVal localV key) (lookupVal remoteV key)) &&
    !(sensitiveFields.any (fun field => hasSub (strToLower key) field)))
  { result := some result, conflicts := conflicts, merged := true }

/-- Merger.canMerge (lines 226-229): only .json paths are structurally
mergeable. -/
def canMerge (filePath : String) : Bool :=
  [".json"].any (fun ext => ext.data.isSuffixOf filePath.data)

/-- Merger.mergeFiles (lines 150-194).  File existence/contents are passed as
Option String; parse models JSON.parse (none = thrown SyntaxError, which the
source catches).  The on-disk copies/writes are not part of the outcome. -/
def mergeFiles (st : ConflictStrategy) (parse : String → Option JsonVal)
    (localFile remoteFile : Option String) (localPath : String) : MergeResult :=
  match localFile with
  | none => { result := none, conflicts := [], merged := true }
  | some lc =>
    match remoteFile with
    | none => { result := none, conflicts := [], merged := true }
    | some rc =>
      match parse lc, parse rc with
      | some lj, some rj => mergeJson st lj rj
      | _, _ => { result := none, conflicts := [localPath], merged := false }

/-- Merger.applyMergeChoice (lines 199-221).  The 'merge' arm parses both
sides and deep-merges with default options; a parse failure returns the
remote content.  The source's choice type excludes 'skip'; the chooseSkip arm
is unreachable and mirrors the remote default. -/
def applyMergeChoice (parse : String → Option JsonVal)
    (localContent remoteContent : String) (choice : Choice) : String :=
  match choice with
  | .chooseLocal => localContent
  | .chooseRemote => remoteContent
  | .chooseMerge =>
      match parse localContent, parse remoteContent with
      | some lj, some rj => stringifyV (deepmergeRun false lj rj)
      | _, _ => remoteContent
  | .chooseSkip => remoteContent

end Merger

/-- The effect environment of the conflict resolver: JSON.parse, the stat
mtimes of ~/.claude/<path> and of the sync-repo mirror copy, and the
interactive answer for each conflicted path. -/
structure ResolveEnv where
  parse : String → Option JsonVal
  localMtime : String → Option Nat
  remoteMtime : String → Option Nat
  askChoice : String → Choice

namespace ConflictResolver

/-- ConflictResolver.resolveByNewest (src/core/conflict-resolver.ts, lines
165-221): pick the side with the later on-disk mtime; one missing stat picks
the present side; both missing defaults to remote; always resolved. -/
def resolveByNewest (conflict : ConflictInfo)
    (localMtime remoteMtime : Option Nat) : ResolveResult :=
  match localMtime, remoteMtime with
  | some lm, some rm =>
      if lm > rm then
        { resolved := true, choice := some .chooseLocal
          content := some conflict.localContent }
      else
        { resolved := true, choice := some .chooseRemote
          content := some conflict.remoteContent }
  | some _, none =>
      { resolved := true, choice := some .chooseLocal
        content := some conflict.localContent }
  | none, some _ =>
      { resolved := true, choice := some .chooseRemote
        content := some conflict.remoteContent }
  | none, none =>
      { resolved := true, choice := some .chooseRemote
        content := some conflict.remoteContent }

/-- ConflictResolver.askUser (lines 96-160): the inquirer answer is modelled
by env.askChoice; canMergeFlag only restricts the offered menu in the source,
the switch over the answer is as written there. -/
def askUser (env : ResolveEnv) (conflict : ConflictInfo)
    (canMergeFlag : Bool) : ResolveResult :=
  match env.askChoice conflict.path with
  | .chooseLocal =>
      { resolved := true, choice := some .chooseLocal
        content := some conflict.localContent }
  | .chooseRemote =>
      { resolved := true, choice := some .chooseRemote
        content := some conflict.remoteContent }
  | .chooseMerge =>
      { resolved := true, choice := some .chooseMerge
        content := some (Merger.applyMergeChoice env.parse
          conflict.localContent conflict.remoteContent .chooseMerge) }
  | .chooseSkip => { resolved := false, choice := some .chooseSkip }

/-- ConflictResolver.resolveConflict (lines 63-91): strategy dispatch. -/
def resolveConflict (st : ConflictStrategy) (env : ResolveEnv)
    (conflict : ConflictInfo) : ResolveResult :=
  match st with
  | .localFirst =>
      { resolved := true, choice := some .chooseLocal
        content := some conflict.localContent }
  | .remoteFirst =>
      { resolved := true, choice := some .chooseRemote
        content := some conflict.remoteContent }
  | .newest =>
      resolveByNewest conflict (env.localMtime conflict.path)
        (env.remoteMtime conflict.path)
  | .ask => askUser env conflict (Merger.canMerge conflict.path)

/-- ConflictResolver.resolveConflicts (lines 31-58): each record is re-emitted
with resolved set; the chosen content of the ResolveResult is dropped (the
ConflictInfo record has no field for it). -/
def resolveConflicts (st : ConflictStrategy) (env : ResolveEnv) :
    List ConflictInfo → List ConflictInfo
  | [] => []
  | c :: rest =>
      let r := resolveConflict st env c
      let c2 :=
        if r.resolved = true ∧ r.content ≠ none then { c with resolved := some true }
        else if r.choice = some Choice.chooseSkip then { c with resolved := some false }
        else { c with resolved := some true }
      c2 :: resolveConflicts st env rest

/-- ConflictResolver.applyResolutions (lines 286-304): for every record whose
resolved field is truthy it writes conflict.remoteContent to the record's
path under the target directory.  Modelled as the list of (path, content)
writes performed, in order. -/
def applyResolutions (conflicts : List ConflictInfo) : List (String × String) :=
  conflicts.filterMap (fun c =>
    if c.resolved = some true then some (c.path, c.remoteContent) else none)

end ConflictResolver

/-- The environment of one SyncEngine.pull pass: the mirror files pulled into
the sync repo (relative path and content), the live local tree, the resolver
environment, and whether the git transport pull succeeded. -/
structure PullEnv where
  repoFiles : List (String × String)
  localContent : String → Option String
  resolve : ResolveEnv
  transportPull : Bool

namespace SyncEngine

/-- SyncEngine.checkForConflicts (src/core/sync-engine.ts, lines 488-514): a
repo file that also exists locally with different bytes becomes a
ConflictInfo. -/
def checkForConflicts (env : PullEnv) : List ConflictInfo :=
  env.repoFiles.filterMap (fun fr =>
    match env.localContent fr.1 with
    | some lc =>
        if lc ≠ fr.2 then
          some { path := fr.1, localContent := lc, remoteContent := fr.2 }
        else none
    | none => none)

/-- SyncEngine.pull (lines 171-234).  Returns the SyncResult together with the
list of (path, content) writes made into the live local tree: the
applyResolutions writes, then (only when no conflict is left unresolved) the
applyFilesToClaude copies of every repo file.  The safety backup does not
affect any claimed field and is omitted. -/
def pull (st : ConflictStrategy) (env : PullEnv) :
    SyncResult × List (String × String) :=
  if env.transportPull = false then
    ({ success := false
       errors := some ["Failed to pull from remote"]
       message := "Failed to pull from remote" }, [])
  else
    let repoFiles := env.repoFiles
    let conflicts := checkForConflicts env
    if conflicts.length > 0 then
      let resolved := ConflictResolver.resolveConflicts st env.resolve conflicts
      let writes := ConflictResolver.applyResolutions resolved
      let unresolved := (resolved.filter (fun c => ¬ (c.resolved = some true))).length
      if unresolved > 0 then
        ({ success := false
           errors := some [toString unresolved ++ " conflicts remain unresolved"]
           message := "Pull completed with unresolved conflicts" }, writes)
      else
        ({ success := true
           pulled := some repoFiles.length
           conflicts := some conflicts
           message := "Successfully pulled " ++ toString repoFiles.length ++ " files" },
         writes ++ repoFiles)
    else
      ({ success := true
         pulled := some repoFiles.length
         conflicts := none
         message := "Successfully pulled " ++ toString repoFiles.length ++ " files" },
       repoFiles)

/-- The state a SyncEngine.push pass acts on: the scanned live-tree files
(relative path and content), the sync-repo mirror working tree, the tree of
the mirror's last commit, a commit counter, and whether the git transport
push succeeds. -/
structure PushState where
  localFiles : List (String × String)
  mirror : List (String × String)
  lastCommit : List (String × String)
  commitCount : Nat
  pushOk : Bool
deriving DecidableEq, Repr

/-- One file copy into the mirror (fs.copyFileSync): replace the path's
content if present, else add the file. -/
def setKey : List (String × String) → String → String → List (String × String)
  | [], p, c => [(p, c)]
  | (q, d) :: m, p, c =>
      if q = p then (q, c) :: m else (q, d) :: setKey m p c

/-- SyncEngine.copyFilesToRepo (lines 436-447): copy every scanned file into
the mirror. -/
def setAll (m : List (String × String)) (files : List (String × String)) :
    List (String × String) :=
  files.foldl (fun acc f => setKey acc f.1 f.2) m

/-- SyncEngine.push (lines 97-166) with GitManager.hasChanges (lines 378-385):
after copying and staging, `status().files.length > 0` holds exactly when the
mirror working tree differs from the last commit; a commit is created only
then, and otherwise pushed = 0 is reported. -/
def push (s : PushState) : SyncResult × PushState :=
  if s.localFiles.length = 0 then
    ({ success := true, pushed := some 0, message := "No files to sync" }, s)
  else
    let mirror2 := setAll s.mirror s.localFiles
    if mirror2 ≠ s.lastCommit then
      let n := s.localFiles.length
      let s2 := { s with mirror := mirror2, lastCommit := mirror2
                         commitCount := s.commitCount + 1 }
      if s.pushOk then
        ({ success := true, pushed := some n
           message := "Successfully pushed " ++ toString n ++ " files" }, s2)
      else
        ({ success := false
           errors := some ["Failed to push to remote"]
           message := "Failed to push to remote" }, s2)
    else
      ({ success := true, pushed := some 0, message := "No changes to push" },
       { s with mirror := mirror2 })

end SyncEngine

/-
Theorems.  Supporting lemmas come first, then one theorem per claim (with a
witness or counterexample where required).
-/

mutual
theorem beqV_iff : ∀ a b, beqV a b = true ↔ a = b
  | .prim a, .prim b => by simp [beqV]
  | .prim a, .container b fs => by simp [beqV]
  | .container a es, .prim b => by simp [beqV]
  | .container a es, .container b fs => by
      simp [beqV, beqE_iff es fs]
theorem beqE_iff : ∀ es fs, beqE es fs = true ↔ es = fs
  | [], [] => by simp [beqE]
  | [], (k, v) :: rest => by simp [beqE]
  | (k, v) :: rest, [] => by simp [beqE]
  | (k, v) :: rest, (k2, v2) :: rest2 => by
      simp [beqE, beqV_iff v v2, beqE_iff rest rest2, and_assoc]
end

theorem beqV_eq_false_of_ne {a b : JsonVal} (h : a ≠ b) : beqV a b = false := by
  cases hb : beqV a b
  · rfl
  · exact absurd ((beqV_iff a b).mp hb) h

/-- C3 (counterexample).  Under the 'local' strategy a primitive/primitive
mismatch yields a non-empty conflict list yet merged = true, so the
two-way merge's merged flag is not equivalent to the conflict list being
empty for every configured strategy. -/
theorem mergeJson_merged_nonask_counterexample :
    (Merger.mergeJson .localFirst (.prim (.pnum 1)) (.prim (.pnum 2))).merged = true ∧
    (Merger.mergeJson .localFirst (.prim (.pnum 1)) (.prim (.pnum 2))).conflicts = [""] ∧
    ([""] : List String) ≠ [] := by
  refine ⟨?_, ?_, by decide⟩ <;>
    simp [Merger.mergeJson, Merger.deepMergeWithConflicts, joinDots,
      Merger.resolveConflict]

/-- C3 (amended).  mergeJson's merged flag is true exactly when the conflict
list is empty or the configured strategy is not 'ask' (the source computes
`conflicts.length === 0 || strategy !== 'ask'`). -/
theorem mergeJson_merged_iff (st : ConflictStrategy) (lv rv : JsonVal) :
    (Merger.mergeJson st lv rv).merged = true ↔
      ((Merger.mergeJson st lv rv).conflicts = [] ∨ st ≠ ConflictStrategy.ask) := by
  simp [Merger.mergeJson, List.isEmpty_iff]

/-- C6.  resolveByNewest always resolves with one of the two sides' contents;
with both mtimes present the strictly later side wins, with exactly one
present that side wins, and with neither present remote wins. -/
theorem resolveByNewest_selects_later (c : ConflictInfo) (lm rm : Option Nat) :
    (ConflictResolver.resolveByNewest c lm rm).resolved = true ∧
    ((ConflictResolver.resolveByNewest c lm rm).content = some c.localContent ∨
     (ConflictResolver.resolveByNewest c lm rm).content = some c.remoteContent) ∧
    (∀ a b, lm = some a → rm = some b → b < a →
      (ConflictResolver.resolveByNewest c lm rm).content = some c.localContent) ∧
    (∀ a b, lm = some a → rm = some b → a < b →
      (ConflictResolver.resolveByNewest c lm rm).content = some c.remoteContent) ∧
    (∀ a, lm = some a → rm = none →
      (ConflictResolver.resolveByNewest c lm rm).content = some c.localContent) ∧
    (∀ b, lm = none → rm = some b →
      (ConflictResolver.resolveByNewest c lm rm).content = some c.remoteContent) ∧
    (lm = none → rm = none →
      (ConflictResolver.resolveByNewest c lm rm).content = some c.remoteContent) := by
  rcases lm with _ | a <;> rcases rm with _ | b <;>
    simp [ConflictResolver.resolveByNewest]
  by_cases hab : a > b <;> simp [hab]
  all_goals
    first
    | (intro h; omega)
    | (constructor <;> (intro h; omega))

/-- C6 witness: a local mtime of 5 against a remote mtime of 3 selects the
local content. -/
theorem resolveByNewest_selects_later_witness :
    (ConflictResolver.resolveByNewest
      { path := "p", localContent := "L", remoteContent := "R" }
      (some 5) (some 3)).content = some "L" :=
  (resolveByNewest_selects_later
    { path := "p", localContent := "L", remoteContent := "R" }
    (some 5) (some 3)).2.2.1 5 3 rfl rfl (by omega)

/-- C8.  When both files exist but either side fails to parse as JSON,
mergeFiles returns the non-mergeable conflict outcome (result null,
merged false, the local path as the conflict) instead of propagating the
parse error. -/
theorem mergeFiles_parse_failure_conflict (st : ConflictStrategy)
    (parse : String → Option JsonVal) (lc rc lp : String)
    (h : parse lc = none ∨ parse rc = none) :
    Merger.mergeFiles st parse (some lc) (some rc) lp =
      { result := none, conflicts := [lp], merged := false } := by
  rcases h with h | h
  · simp [Merger.mergeFiles, h]
  · cases hp : parse lc <;> simp [Merger.mergeFiles, h, hp]

/-- C8 witness: with a parser that rejects everything, a concrete pair of
existing files degrades to the conflict outcome. -/
theorem mergeFiles_parse_failure_conflict_witness :
    Merger.mergeFiles .ask (fun _ => none) (some "x") (some "y") "settings.json" =
      { result := none, conflicts := ["settings.json"], merged := false } :=
  mergeFiles_parse_failure_conflict .ask (fun _ => none) "x" "y" "settings.json"
    (Or.inl rfl)

/-- A one-conflict scenario under the 'local' strategy (used for C1). -/
def c1conf : ConflictInfo :=
  { path := "settings.json", localContent := "A", remoteContent := "B" }

/-- A resolver environment with no filesystem data and a skipping user. -/
def env0 : ResolveEnv :=
  { parse := fun _ => none, localMtime := fun _ => none
    remoteMtime := fun _ => none, askChoice := fun _ => Choice.chooseSkip }

/-- C1.  The resolver chooses the local content "A" (resolved = true), but the
re-emitted ConflictInfo record carries no replacement content (the type has
no such field) and applyResolutions writes the remote content "B" for the
record, so the content written into the live local tree differs from the
chosen content. -/
theorem resolver_writes_remote_for_local_choice :
    (ConflictResolver.resolveConflict .localFirst env0 c1conf).content = some "A" ∧
    ConflictResolver.resolveConflicts .localFirst env0 [c1conf] =
      [{ c1conf with resolved := some true }] ∧
    ConflictResolver.applyResolutions
      (ConflictResolver.resolveConflicts .localFirst env0 [c1conf]) =
      [("settings.json", "B")] ∧
    ("A" : String) ≠ "B" := by
  refine ⟨rfl, ?_, ?_, by decide⟩ <;>
    simp [ConflictResolver.resolveConflicts, ConflictResolver.resolveConflict,
      ConflictResolver.applyResolutions, c1conf, env0]

/-- Base document for the C4 counterexample. -/
def c4base : JsonVal :=
  .container false [("a", .prim (.pnum 1)), ("b", .prim (.pnum 1))]

/-- Local document: only key "a" changed from base. -/
def c4local : JsonVal :=
  .container false [("a", .prim (.pnum 2)), ("b", .prim (.pnum 1))]

/-- Remote document: only key "b" changed from base. -/
def c4remote : JsonVal :=
  .container false [("a", .prim (.pnum 1)), ("b", .prim (.pnum 2))]

/-- C4 (counterexample).  At leaf "a" the remote side equals base (a
local-only change, which leaf-wise classification would take with no
conflict), yet because both documents changed somewhere, threeWayMerge
falls back to the two-way merge and reports both "a" and "b" as conflicts. -/
theorem threeWayMerge_leafwise_counterexample :
    lookupVal c4remote "a" = lookupVal c4base "a" ∧
    lookupVal c4local "a" ≠ lookupVal c4base "a" ∧
    (Merger.threeWayMerge .ask c4base c4local c4remote).conflicts = ["a", "b"] := by
  refine ⟨rfl, by simp [c4local, c4base, lookupVal, List.lookup], ?_⟩
  simp [Merger.threeWayMerge, c4base, c4local, c4remote, beqV, beqE,
    Merger.deepMergeWithConflicts, Merger.mergeKeys, dedupFirst, dedupAux,
    List.lookup, joinDots, Merger.resolveConflict]

/-- C4 (amended).  threeWayMerge classifies whole documents, not leaves: if
neither side changed it returns base; if exactly one side changed it returns
that side with zero conflicts; if both changed it ignores base and returns
the two-way merge of local and remote, whose conflicts are every leaf where
the two sides differ (even leaves where one side equals base). -/
theorem threeWayMerge_document_level (st : ConflictStrategy) (b lv rv : JsonVal) :
    (lv = b → rv = b → Merger.threeWayMerge st b lv rv =
      { result := some b, conflicts := [], merged := true }) ∧
    (lv = b → rv ≠ b → Merger.threeWayMerge st b lv rv =
      { result := some rv, conflicts := [], merged := true }) ∧
    (lv ≠ b → rv = b → Merger.threeWayMerge st b lv rv =
      { result := some lv, conflicts := [], merged := true }) ∧
    (lv ≠ b → rv ≠ b → Merger.threeWayMerge st b lv rv =
      { result := some (Merger.deepMergeWithConflicts st lv rv []).1
        conflicts := (Merger.deepMergeWithConflicts st lv rv []).2
        merged := (Merger.deepMergeWithConflicts st lv rv []).2.isEmpty }) := by
  refine ⟨?_, ?_, ?_, ?_⟩ <;> intro h1 h2
  · simp [Merger.threeWayMerge, (beqV_iff lv b).mpr h1, (beqV_iff rv b).mpr h2]
  · simp [Merger.threeWayMerge, (beqV_iff lv b).mpr h1, beqV_eq_false_of_ne h2]
  · simp [Merger.threeWayMerge, beqV_eq_false_of_ne h1, (beqV_iff rv b).mpr h2]
  · simp [Merger.threeWayMerge, beqV_eq_false_of_ne h1, beqV_eq_false_of_ne h2]

/-- C4 witness: when only the remote side changed from base, threeWayMerge
returns the remote value with zero conflicts. -/
theorem threeWayMerge_document_level_witness :
    Merger.threeWayMerge .ask (.prim (.pnum 1)) (.prim (.pnum 1)) (.prim (.pnum 2)) =
      { result := some (.prim (.pnum 2)), conflicts := [], merged := true } :=
  (threeWayMerge_document_level .ask (.prim (.pnum 1)) (.prim (.pnum 1))
    (.prim (.pnum 2))).2.1 rfl (by simp)

/-- C9 (counterexample).  A key named "apiKey" lowercases to "apikey", which
contains the claimed sensitive name 'apikey', yet mergeSettings still reports
it as a conflict: the source compares the lowercased key against the
mixed-case strings 'apiKey'/'apiToken', which can never occur in a lowercased
key. -/
theorem mergeSettings_sensitive_counterexample :
    hasSub (strToLower "apiKey") "apikey" = true ∧
    (Merger.mergeSettings (.container false [("apiKey", .prim (.pnum 1))])
      (.container false [("apiKey", .prim (.pnum 2))])).conflicts = ["apiKey"] := by
  constructor
  · decide
  · decide

/-- C9 (amended).  mergeSettings always returns merged = true, and a top-level
key whose lowercased name contains 'token', 'secret', 'password' or
'credential' never appears in the conflicts list; the 'apiKey'/'apiToken'
entries of the sensitive list are dead (a lowercased key cannot contain a
capital letter), so keys matching only 'apikey' are not protected. -/
theorem mergeSettings_merged_and_sensitive (lv rv : JsonVal) :
    (Merger.mergeSettings lv rv).merged = true ∧
    (∀ k, (hasSub (strToLower k) "token" = true ∨
           hasSub (strToLower k) "secret" = true ∨
           hasSub (strToLower k) "password" = true ∨
           hasSub (strToLower k) "credential" = true) →
      k ∉ (Merger.mergeSettings lv rv).conflicts) := by
  constructor
  · rfl
  · intro k hk hmem
    simp only [Merger.mergeSettings, List.mem_filter, Bool.and_eq_true,
      Bool.not_eq_true] at hmem
    have hany := hmem.2.2
    simp only [Merger.sensitiveFields, List.any_cons, List.any_nil,
      Bool.or_eq_false_iff] at hany
    rcases hk with h | h | h | h <;> simp [h] at hany

/-- C9 witness: a differing key "myToken" (lowercase contains 'token') is kept
out of the conflicts list. -/
theorem mergeSettings_merged_and_sensitive_witness :
    ("myToken" : String) ∉
      (Merger.mergeSettings (.container false [("myToken", .prim (.pnum 1))])
        (.container false [("myToken", .prim (.pnum 2))])).conflicts :=
  (mergeSettings_merged_and_sensitive _ _).2 "myToken" (Or.inl (by decide))

theorem resolveConflicts_length (st : ConflictStrategy) (env : ResolveEnv) :
    ∀ cs : List ConflictInfo,
      (ConflictResolver.resolveConflicts st env cs).length = cs.length
  | [] => rfl
  | c :: rest => by
      simp [ConflictResolver.resolveConflicts, resolveConflicts_length st env rest]

/-- Pull environment for the C2 counterexample: two conflicting files, the
user keeps local for a.txt and skips b.txt. -/
def env2 : PullEnv :=
  { repoFiles := [("a.txt", "ra"), ("b.txt", "rb")]
    localContent := fun p =>
      if p = "a.txt" then some "la" else if p = "b.txt" then some "lb" else none
    resolve :=
      { parse := fun _ => none, localMtime := fun _ => none
        remoteMtime := fun _ => none
        askChoice := fun p => if p = "a.txt" then Choice.chooseLocal else Choice.chooseSkip }
    transportPull := true }

/-- C2 (counterexample).  With exactly one of two conflicts skipped and the
other resolved, pull writes the resolved record but returns success = false
with no conflicts field, contradicting the claimed success = true with a
non-empty conflicts sequence. -/
theorem pull_unresolved_skip_fails :
    (SyncEngine.pull .ask env2).1.success = false ∧
    (SyncEngine.pull .ask env2).1.conflicts = none ∧
    (SyncEngine.pull .ask env2).2 = [("a.txt", "ra")] := by
  refine ⟨?_, ?_, ?_⟩ <;> decide

/-- C2 (amended).  A pull pass whose resolution leaves exactly one record
unresolved still performs the applyResolutions write for every
resolved = true record, but then returns success = false with the error
"1 conflicts remain unresolved", the message "Pull completed with unresolved
conflicts", and no conflicts field; the repo files are not applied. -/
theorem pull_one_skip_behavior (st : ConflictStrategy) (env : PullEnv)
    (ht : env.transportPull = true)
    (hu : ((ConflictResolver.resolveConflicts st env.resolve
            (SyncEngine.checkForConflicts env)).filter
            (fun c => ¬ (c.resolved = some true))).length = 1) :
    (SyncEngine.pull st env).1.success = false ∧
    (SyncEngine.pull st env).1.errors = some ["1 conflicts remain unresolved"] ∧
    (SyncEngine.pull st env).1.message = "Pull completed with unresolved conflicts" ∧
    (SyncEngine.pull st env).1.conflicts = none ∧
    (SyncEngine.pull st env).2 =
      ConflictResolver.applyResolutions
        (ConflictResolver.resolveConflicts st env.resolve
          (SyncEngine.checkForConflicts env)) ∧
    (∀ c ∈ ConflictResolver.resolveConflicts st env.resolve
        (SyncEngine.checkForConflicts env),
      c.resolved = some true → (c.path, c.remoteContent) ∈ (SyncEngine.pull st env).2) := by
  have hne : (SyncEngine.checkForConflicts env).length > 0 := by
    by_contra hzero
    have : SyncEngine.checkForConflicts env = [] := by
      cases h : SyncEngine.checkForConflicts env
      · rfl
      · exact absurd (by simp [h]) hzero
    rw [this] at hu
    simp [ConflictResolver.resolveConflicts] at hu
  have hpull : SyncEngine.pull st env =
      ({ success := false
         errors := some ["1 conflicts remain unresolved"]
         message := "Pull completed with unresolved conflicts" },
       ConflictResolver.applyResolutions
         (ConflictResolver.resolveConflicts st env.resolve
           (SyncEngine.checkForConflicts env))) := by
    have hu2 : (List.filter (fun c => !decide (c.resolved = some true))
        (ConflictResolver.resolveConflicts st env.resolve
          (SyncEngine.checkForConflicts env))).length = 1 := by
      simpa [decide_not] using hu
    simp [SyncEngine.pull, ht, hne, hu2]
    decide
  refine ⟨by rw [hpull], by rw [hpull], by rw [hpull], by rw [hpull], by rw [hpull], ?_⟩
  intro c hc hres
  rw [hpull]
  simp only [ConflictResolver.applyResolutions, List.mem_filterMap]
  exact ⟨c, hc, by simp [hres]⟩

/-- C2 witness: the env2 scenario satisfies the hypotheses of
pull_one_skip_behavior, whose conclusion then gives the failure result. -/
theorem pull_one_skip_behavior_witness :
    (SyncEngine.pull .ask env2).1.errors = some ["1 conflicts remain unresolved"] :=
  (pull_one_skip_behavior .ask env2 rfl (by decide)).2.1

theorem lookup_setKey_self (m : List (String × String)) (p c : String) :
    (SyncEngine.setKey m p c).lookup p = some c := by
  induction m with
  | nil => simp [SyncEngine.setKey, List.lookup]
  | cons e rest ih =>
      rcases e with ⟨q, d⟩
      by_cases hq : q = p
      · simp [SyncEngine.setKey, hq, List.lookup]
      · have hb : (p == q) = false := beq_eq_false_iff_ne.mpr (Ne.symm hq)
        simp [SyncEngine.setKey, hq, List.lookup, hb, ih]

theorem lookup_setKey_other (m : List (String × String)) (p c q : String)
    (h : q ≠ p) : (SyncEngine.setKey m p c).lookup q = m.lookup q := by
  have hqp : (q == p) = false := beq_eq_false_iff_ne.mpr h
  induction m with
  | nil => simp [SyncEngine.setKey, List.lookup, hqp]
  | cons e rest ih =>
      rcases e with ⟨q0, d⟩
      by_cases hq : q0 = p
      · subst hq
        simp [SyncEngine.setKey, List.lookup, hqp]
      · simp [SyncEngine.setKey, hq, List.lookup, ih]

theorem setKey_eq_of_lookup (m : List (String × String)) (p c : String)
    (h : m.lookup p = some c) : SyncEngine.setKey m p c = m := by
  induction m with
  | nil => simp [List.lookup] at h
  | cons e rest ih =>
      rcases e with ⟨q, d⟩
      by_cases hq : q = p
      · subst hq
        simp [List.lookup] at h
        simp [SyncEngine.setKey, h]
      · have hb : (p == q) = false := beq_eq_false_iff_ne.mpr (Ne.symm hq)
        simp [List.lookup, hb] at h
        simp [SyncEngine.setKey, hq, ih h]

theorem lookup_setAll_not_mem (files : List (String × String))
    (m : List (String × String)) (p : String) (h : p ∉ files.map Prod.fst) :
    (SyncEngine.setAll m files).lookup p = m.lookup p := by
  induction files generalizing m with
  | nil => rfl
  | cons f rest ih =>
      simp only [List.map_cons, List.mem_cons, not_or] at h
      have : (SyncEngine.setAll (SyncEngine.setKey m f.1 f.2) rest).lookup p =
          (SyncEngine.setKey m f.1 f.2).lookup p := ih _ h.2
      calc (SyncEngine.setAll m (f :: rest)).lookup p
          = (SyncEngine.setKey m f.1 f.2).lookup p := this
        _ = m.lookup p := lookup_setKey_other m f.1 f.2 p h.1

theorem lookup_setAll_mem (files : List (String × String))
    (hnd : (files.map Prod.fst).Nodup) (m : List (String × String))
    (p c : String) (h : (p, c) ∈ files) :
    (SyncEngine.setAll m files).lookup p = some c := by
  induction files generalizing m with
  | nil => cases h
  | cons f rest ih =>
      simp only [List.map_cons, List.nodup_cons] at hnd
      rcases List.mem_cons.mp h with h | h
      · subst h
        have : (SyncEngine.setAll (SyncEngine.setKey m p c) rest).lookup p =
            (SyncEngine.setKey m p c).lookup p := by
          apply lookup_setAll_not_mem
          exact hnd.1
        calc (SyncEngine.setAll m ((p, c) :: rest)).lookup p
            = (SyncEngine.setKey m p c).lookup p := this
          _ = some c := lookup_setKey_self m p c
      · exact ih hnd.2 _ h

theorem setAll_absorbed (files : List (String × String))
    (m : List (String × String))
    (h : ∀ kv ∈ files, m.lookup kv.1 = some kv.2) :
    SyncEngine.setAll m files = m := by
  induction files with
  | nil => rfl
  | cons f rest ih =>
      have hf : SyncEngine.setKey m f.1 f.2 = m :=
        setKey_eq_of_lookup m f.1 f.2 (h f (List.mem_cons_self f rest))
      calc SyncEngine.setAll m (f :: rest)
          = SyncEngine.setAll (SyncEngine.setKey m f.1 f.2) rest := rfl
        _ = SyncEngine.setAll m rest := by rw [hf]
        _ = m := ih (fun kv hkv => h kv (List.mem_cons_of_mem f hkv))

theorem setAll_idem (m files : List (String × String))
    (hnd : (files.map Prod.fst).Nodup) :
    SyncEngine.setAll (SyncEngine.setAll m files) files =
      SyncEngine.setAll m files :=
  setAll_absorbed files _ (fun kv hkv =>
    lookup_setAll_mem files hnd m kv.1 kv.2 hkv)

/-- C7.  Running push twice with no intervening local changes (same scanned
files) reports pushed = 0 the second time and creates no second commit: the
mirror is unchanged by the second copy pass, so hasChanges is false.  The
hypothesis states that the scanner yields each path once (distinct files). -/
theorem push_second_run_no_commit (s : SyncEngine.PushState)
    (hnd : (s.localFiles.map Prod.fst).Nodup) :
    (SyncEngine.push (SyncEngine.push s).2).1.pushed = some 0 ∧
    (SyncEngine.push (SyncEngine.push s).2).2.commitCount =
      (SyncEngine.push s).2.commitCount := by
  by_cases hlen : s.localFiles.length = 0
  · simp [SyncEngine.push, hlen]
  · have hidem := setAll_idem s.mirror s.localFiles hnd
    by_cases hch : SyncEngine.setAll s.mirror s.localFiles = s.lastCommit
    · have h2 : SyncEngine.setAll s.lastCommit s.localFiles = s.lastCommit := by
        rw [← hch]
        exact hidem
      simp [SyncEngine.push, hlen, hch, h2]
    · by_cases hok : s.pushOk <;>
        simp [SyncEngine.push, hlen, hch, hidem, hok]

/-- C7 witness: one concrete file, empty mirror and commit history. -/
theorem push_second_run_no_commit_witness :
    (SyncEngine.push (SyncEngine.push
      { localFiles := [("a", "1")], mirror := [], lastCommit := []
        commitCount := 0, pushOk := true }).2).1.pushed = some 0 :=
  (push_second_run_no_commit _ (by decide)).1

theorem lookupJ_eq_none {es : List (String × JsonVal)} {k : String}
    (h : k ∉ es.map Prod.fst) : es.lookup k = none := by
  induction es with
  | nil => rfl
  | cons e rest ih =>
      rcases e with ⟨k0, v0⟩
      simp only [List.map_cons, List.mem_cons, not_or] at h
      have hb : (k == k0) = false := beq_eq_false_iff_ne.mpr h.1
      simp [List.lookup, hb, ih h.2]

theorem mergeKeys_nil (st : ConflictStrategy) (es1 es2 : List (String × JsonVal))
    (p : List String) : Merger.mergeKeys st es1 es2 p [] = ([], []) := by
  simp [Merger.mergeKeys]

theorem mergeKeys_cons_nn (st : ConflictStrategy)
    (es1 es2 : List (String × JsonVal)) (p : List String) (k : String)
    (ks : List String) (h1 : es1.lookup k = none) (h2 : es2.lookup k = none) :
    Merger.mergeKeys st es1 es2 p (k :: ks) = Merger.mergeKeys st es1 es2 p ks := by
  simp only [Merger.mergeKeys]
  split <;> simp_all

theorem mergeKeys_cons_ns (st : ConflictStrategy)
    (es1 es2 : List (String × JsonVal)) (p : List String) (k : String)
    (ks : List String) (v : JsonVal)
    (h1 : es1.lookup k = none) (h2 : es2.lookup k = some v) :
    Merger.mergeKeys st es1 es2 p (k :: ks) =
      ((k, v) :: (Merger.mergeKeys st es1 es2 p ks).1,
       (Merger.mergeKeys st es1 es2 p ks).2) := by
  simp only [Merger.mergeKeys]
  split <;> simp_all

theorem mergeKeys_cons_sn (st : ConflictStrategy)
    (es1 es2 : List (String × JsonVal)) (p : List String) (k : String)
    (ks : List String) (v : JsonVal)
    (h1 : es1.lookup k = some v) (h2 : es2.lookup k = none) :
    Merger.mergeKeys st es1 es2 p (k :: ks) =
      ((k, v) :: (Merger.mergeKeys st es1 es2 p ks).1,
       (Merger.mergeKeys st es1 es2 p ks).2) := by
  simp only [Merger.mergeKeys]
  split <;> simp_all

theorem mergeKeys_cons_ss (st : ConflictStrategy)
    (es1 es2 : List (String × JsonVal)) (p : List String) (k : String)
    (ks : List String) (v1 v2 : JsonVal)
    (h1 : es1.lookup k = some v1) (h2 : es2.lookup k = some v2) :
    Merger.mergeKeys st es1 es2 p (k :: ks) =
      ((k, (Merger.deepMergeWithConflicts st v1 v2 (p ++ [k])).1) ::
         (Merger.mergeKeys st es1 es2 p ks).1,
       (Merger.deepMergeWithConflicts st v1 v2 (p ++ [k])).2 ++
         (Merger.mergeKeys st es1 es2 p ks).2) := by
  simp only [Merger.mergeKeys]
  split <;> simp_all

theorem mergeKeys_append (st : ConflictStrategy)
    (es1 es2 : List (String × JsonVal)) (p : List String)
    (ks ks2 : List String) :
    Merger.mergeKeys st es1 es2 p (ks ++ ks2) =
      ((Merger.mergeKeys st es1 es2 p ks).1 ++ (Merger.mergeKeys st es1 es2 p ks2).1,
       (Merger.mergeKeys st es1 es2 p ks).2 ++ (Merger.mergeKeys st es1 es2 p ks2).2) := by
  induction ks with
  | nil => simp [mergeKeys_nil]
  | cons k ks ih =>
      rcases h1 : es1.lookup k with _ | v1 <;> rcases h2 : es2.lookup k with _ | v2
      · rw [List.cons_append, mergeKeys_cons_nn st es1 es2 p k (ks ++ ks2) h1 h2,
          mergeKeys_cons_nn st es1 es2 p k ks h1 h2, ih]
      · rw [List.cons_append, mergeKeys_cons_ns st es1 es2 p k (ks ++ ks2) v2 h1 h2,
          mergeKeys_cons_ns st es1 es2 p k ks v2 h1 h2, ih]
        simp
      · rw [List.cons_append, mergeKeys_cons_sn st es1 es2 p k (ks ++ ks2) v1 h1 h2,
          mergeKeys_cons_sn st es1 es2 p k ks v1 h1 h2, ih]
        simp
      · rw [List.cons_append, mergeKeys_cons_ss st es1 es2 p k (ks ++ ks2) v1 v2 h1 h2,
          mergeKeys_cons_ss st es1 es2 p k ks v1 v2 h1 h2, ih]
        simp [List.append_assoc]

theorem mergeKeys_only_left (st : ConflictStrategy)
    (es1 es2 : List (String × JsonVal)) (p : List String) (ks : List String)
    (h : ∀ k ∈ ks, es2.lookup k = none) :
    Merger.mergeKeys st es1 es2 p ks =
      (ks.filterMap (fun k => (es1.lookup k).map (fun v => (k, v))), []) := by
  induction ks with
  | nil => simp [mergeKeys_nil]
  | cons k ks ih =>
      have h2 := h k (List.mem_cons_self k ks)
      have hrest := ih (fun k2 hk2 => h k2 (List.mem_cons_of_mem k hk2))
      rcases h1 : es1.lookup k with _ | v
      · rw [mergeKeys_cons_nn st es1 es2 p k ks h1 h2, hrest]
        simp [h1]
      · rw [mergeKeys_cons_sn st es1 es2 p k ks v h1 h2, hrest]
        simp [h1]

theorem mergeKeys_only_right (st : ConflictStrategy)
    (es1 es2 : List (String × JsonVal)) (p : List String) (ks : List String)
    (h : ∀ k ∈ ks, es1.lookup k = none) :
    Merger.mergeKeys st es1 es2 p ks =
      (ks.filterMap (fun k => (es2.lookup k).map (fun v => (k, v))), []) := by
  induction ks with
  | nil => simp [mergeKeys_nil]
  | cons k ks ih =>
      have h1 := h k (List.mem_cons_self k ks)
      have hrest := ih (fun k2 hk2 => h k2 (List.mem_cons_of_mem k hk2))
      rcases h2 : es2.lookup k with _ | v
      · rw [mergeKeys_cons_nn st es1 es2 p k ks h1 h2, hrest]
        simp [h2]
      · rw [mergeKeys_cons_ns st es1 es2 p k ks v h1 h2, hrest]
        simp [h2]

theorem entries_rebuild {es : List (String × JsonVal)}
    (h : (es.map Prod.fst).Nodup) :
    (es.map Prod.fst).filterMap (fun k => (es.lookup k).map (fun v => (k, v))) = es := by
  induction es with
  | nil => rfl
  | cons e rest ih =>
      rcases e with ⟨k0, v0⟩
      simp only [List.map_cons, List.nodup_cons] at h
      have hhead : (((k0, v0) :: rest).lookup k0) = some v0 := by
        simp [List.lookup]
      have htail : (rest.map Prod.fst).filterMap
          (fun k => ((((k0, v0) :: rest)).lookup k).map (fun v => (k, v))) =
          (rest.map Prod.fst).filterMap (fun k => (rest.lookup k).map (fun v => (k, v))) := by
        apply List.filterMap_congr
        intro k hk
        have hne : (k == k0) = false := beq_eq_false_iff_ne.mpr (by
          intro he
          exact h.1 (he ▸ hk))
        simp [List.lookup, hne]
      simp only [List.map_cons, List.filterMap_cons, hhead, Option.map_some]
      rw [htail, ih h.2]
      rfl

theorem dedupAux_eq_self (l : List String) :
    ∀ seen, (∀ x ∈ l, x ∉ seen) → l.Nodup → dedupAux seen l = l := by
  induction l with
  | nil => intro seen _ _; rfl
  | cons k ks ih =>
      intro seen hs hnd
      simp only [List.nodup_cons] at hnd
      have hk : k ∉ seen := hs k (List.mem_cons_self k ks)
      rw [dedupAux, if_neg hk]
      congr 1
      apply ih (k :: seen) _ hnd.2
      intro x hx hmem
      rcases List.mem_cons.mp hmem with he | he
      · exact hnd.1 (he ▸ hx)
      · exact hs x (List.mem_cons_of_mem k hx) he

theorem dedupFirst_eq_self {l : List String} (h : l.Nodup) : dedupFirst l = l :=
  dedupAux_eq_self l [] (by simp) h

/-- C5.  For two objects with disjoint (and, as for every JS object,
duplicate-free) top-level key sets, the two-way merge reports no conflicts
and its result is the union: local's entries followed by remote's, each taken
as-is. -/
theorem merge_disjoint_union (st : ConflictStrategy)
    (es1 es2 : List (String × JsonVal))
    (h1 : (es1.map Prod.fst).Nodup) (h2 : (es2.map Prod.fst).Nodup)
    (hd : ∀ k ∈ es1.map Prod.fst, k ∉ es2.map Prod.fst) :
    (Merger.mergeJson st (.container false es1) (.container false es2)).conflicts = [] ∧
    (Merger.mergeJson st (.container false es1) (.container false es2)).result =
      some (.container false (es1 ++ es2)) := by
  have hnodup : ((es1.map Prod.fst) ++ (es2.map Prod.fst)).Nodup := by
    rw [List.nodup_append]
    exact ⟨h1, h2, fun a ha hb => hd a ha hb⟩
  have hded := dedupFirst_eq_self hnodup
  have hleft := mergeKeys_only_left st es1 es2 [] (es1.map Prod.fst)
    (fun k hk => lookupJ_eq_none (hd k hk))
  have hright := mergeKeys_only_right st es1 es2 [] (es2.map Prod.fst)
    (fun k hk => lookupJ_eq_none (fun hmem => hd k hmem hk))
  rw [entries_rebuild h1] at hleft
  rw [entries_rebuild h2] at hright
  have happ := mergeKeys_append st es1 es2 [] (es1.map Prod.fst) (es2.map Prod.fst)
  rw [hleft, hright] at happ
  constructor <;>
    simp [Merger.mergeJson, Merger.deepMergeWithConflicts, hded, happ]

/-- C5 witness: merging the singleton objects for keys "a" and "b". -/
theorem merge_disjoint_union_witness :
    (Merger.mergeJson .ask (.container false [("a", .prim (.pnum 1))])
      (.container false [("b", .prim (.pnum 2))])).conflicts = [] :=
  (merge_disjoint_union .ask [("a", .prim (.pnum 1))] [("b", .prim (.pnum 2))]
    (by decide) (by decide) (by decide)).1

theorem jsize_pos (v : JsonVal) : 1 ≤ jsize v := by
  cases v <;> simp [jsize]

theorem lookup_jsize {es : List (String × JsonVal)} {k : String} {v : JsonVal}
    (h : es.lookup k = some v) : jsize v < esize es := by
  induction es with
  | nil => simp [List.lookup] at h
  | cons e rest ih =>
      rcases e with ⟨k0, v0⟩
      by_cases hk : (k == k0) = true
      · simp [List.lookup, hk] at h
        subst h
        simp [esize]
        omega
      · have hb : (k == k0) = false := by
          cases hbe : (k == k0)
          · rfl
          · exact absurd hbe hk
        simp [List.lookup, hb] at h
        have := ih h
        simp [esize]
        omega

theorem dmc_conflict_extends (st : ConflictStrategy) :
    ∀ n (lv rv : JsonVal) (p : List String), jsize lv + jsize rv ≤ n →
      ∀ c ∈ (Merger.deepMergeWithConflicts st lv rv p).2,
        ∃ q, c = joinDots (p ++ q) := by
  intro n
  induction n with
  | zero =>
      intro lv rv p hle
      have hl := jsize_pos lv
      have hr := jsize_pos rv
      omega
  | succ n ih =>
      intro lv rv p hle c hc
      cases lv with
      | prim a =>
          cases rv with
          | prim b =>
              by_cases hab : a = b
              · simp [Merger.deepMergeWithConflicts, hab] at hc
              · simp [Merger.deepMergeWithConflicts, hab] at hc
                exact ⟨[], by simp [hc]⟩
          | container k2 es2 =>
              simp [Merger.deepMergeWithConflicts] at hc
              exact ⟨[], by simp [hc]⟩
      | container k1 es1 =>
          cases rv with
          | prim b =>
              simp [Merger.deepMergeWithConflicts] at hc
              exact ⟨[], by simp [hc]⟩
          | container k2 es2 =>
              simp only [Merger.deepMergeWithConflicts] at hc
              have inner : ∀ ks c2, c2 ∈ (Merger.mergeKeys st es1 es2 p ks).2 →
                  ∃ q, c2 = joinDots (p ++ q) := by
                intro ks
                induction ks with
                | nil =>
                    intro c2 hc2
                    rw [mergeKeys_nil] at hc2
                    simp at hc2
                | cons k ks ihk =>
                    intro c2 hc2
                    rcases h1 : es1.lookup k with _ | v1 <;>
                      rcases h2 : es2.lookup k with _ | v2
                    · rw [mergeKeys_cons_nn st es1 es2 p k ks h1 h2] at hc2
                      exact ihk c2 hc2
                    · rw [mergeKeys_cons_ns st es1 es2 p k ks v2 h1 h2] at hc2
                      exact ihk c2 hc2
                    · rw [mergeKeys_cons_sn st es1 es2 p k ks v1 h1 h2] at hc2
                      exact ihk c2 hc2
                    · rw [mergeKeys_cons_ss st es1 es2 p k ks v1 v2 h1 h2] at hc2
                      rcases List.mem_append.mp hc2 with hm | hm
                      · have hs1 := lookup_jsize h1
                        have hs2 := lookup_jsize h2
                        have hn : jsize v1 + jsize v2 ≤ n := by
                          simp [jsize] at hle
                          omega
                        obtain ⟨q, hq⟩ := ih v1 v2 (p ++ [k]) hn c2 hm
                        refine ⟨k :: q, ?_⟩
                        rw [hq, List.append_assoc]
                        rfl
                      · exact ihk c2 hm
              exact inner _ c hc

theorem mergeKeys_conflict_shape (st : ConflictStrategy)
    (es1 es2 : List (String × JsonVal)) (p : List String) :
    ∀ ks c, c ∈ (Merger.mergeKeys st es1 es2 p ks).2 →
      ∃ k q, k ∈ ks ∧ (es1.lookup k).isSome = true ∧
        (es2.lookup k).isSome = true ∧ c = joinDots (p ++ k :: q) := by
  intro ks
  induction ks with
  | nil =>
      intro c hc
      rw [mergeKeys_nil] at hc
      simp at hc
  | cons k ks ihk =>
      intro c hc
      rcases h1 : es1.lookup k with _ | v1 <;> rcases h2 : es2.lookup k with _ | v2
      · rw [mergeKeys_cons_nn st es1 es2 p k ks h1 h2] at hc
        obtain ⟨k2, q, hk2, ha, hb, hq⟩ := ihk c hc
        exact ⟨k2, q, List.mem_cons_of_mem k hk2, ha, hb, hq⟩
      · rw [mergeKeys_cons_ns st es1 es2 p k ks v2 h1 h2] at hc
        obtain ⟨k2, q, hk2, ha, hb, hq⟩ := ihk c hc
        exact ⟨k2, q, List.mem_cons_of_mem k hk2, ha, hb, hq⟩
      · rw [mergeKeys_cons_sn st es1 es2 p k ks v1 h1 h2] at hc
        obtain ⟨k2, q, hk2, ha, hb, hq⟩ := ihk c hc
        exact ⟨k2, q, List.mem_cons_of_mem k hk2, ha, hb, hq⟩
      · rw [mergeKeys_cons_ss st es1 es2 p k ks v1 v2 h1 h2] at hc
        rcases List.mem_append.mp hc with hm | hm
        · obtain ⟨q, hq⟩ := dmc_conflict_extends st
            (jsize v1 + jsize v2) v1 v2 (p ++ [k]) le_rfl c hm
          refine ⟨k, q, List.mem_cons_self k ks, by simp [h1], by simp [h2], ?_⟩
          rw [hq, List.append_assoc]
          rfl
        · obtain ⟨k2, q, hk2, ha, hb, hq⟩ := ihk c hm
          exact ⟨k2, q, List.mem_cons_of_mem k hk2, ha, hb, hq⟩

/-- C10.  Merging two containers of different kinds (a list against a
mapping) never records a conflict at that path: the result keeps the local
side's kind and every recorded conflict comes from a key present in both
sides, strictly below the mismatched path.  A conflict is recorded at a node
exactly when at least one side is a primitive (null included) and the sides
differ: equal primitives record nothing, differing primitives and
primitive-versus-container mismatches record the node's path. -/
theorem deepMerge_container_mismatch (st : ConflictStrategy) (p : List String) :
    (∀ (k1 k2 : Bool) (es1 es2 : List (String × JsonVal)), k1 ≠ k2 →
      (∃ es3, (Merger.deepMergeWithConflicts st
          (.container k1 es1) (.container k2 es2) p).1 = .container k1 es3) ∧
      (∀ c ∈ (Merger.deepMergeWithConflicts st
          (.container k1 es1) (.container k2 es2) p).2,
        ∃ k q, (es1.lookup k).isSome = true ∧ (es2.lookup k).isSome = true ∧
          c = joinDots (p ++ k :: q))) ∧
    (∀ a b : Prim, (Merger.deepMergeWithConflicts st (.prim a) (.prim b) p).2 =
      if a = b then [] else [joinDots p]) ∧
    (∀ (a : Prim) (k2 : Bool) (es2 : List (String × JsonVal)),
      (Merger.deepMergeWithConflicts st (.prim a) (.container k2 es2) p).2 =
        [joinDots p]) ∧
    (∀ (k1 : Bool) (es1 : List (String × JsonVal)) (b : Prim),
      (Merger.deepMergeWithConflicts st (.container k1 es1) (.prim b) p).2 =
        [joinDots p]) := by
  refine ⟨?_, ?_, ?_, ?_⟩
  · intro k1 k2 es1 es2 hk
    constructor
    · exact ⟨(Merger.mergeKeys st es1 es2 p
        (dedupFirst (es1.map Prod.fst ++ es2.map Prod.fst))).1,
        by simp [Merger.deepMergeWithConflicts]⟩
    · intro c hc
      simp only [Merger.deepMergeWithConflicts] at hc
      obtain ⟨k, q, hmemk, hs1, hs2, hq⟩ :=
        mergeKeys_conflict_shape st es1 es2 p _ c hc
      exact ⟨k, q, hs1, hs2, hq⟩
  · intro a b
    by_cases hab : a = b <;> simp [Merger.deepMergeWithConflicts, hab]
  · intro a k2 es2
    simp [Merger.deepMergeWithConflicts]
  · intro k1 es1 b
    simp [Merger.deepMergeWithConflicts]

/-- C10 witness: an array against an object with the same key merges into an
array-kinded container. -/
theorem deepMerge_container_mismatch_witness :
    ∃ es3, (Merger.deepMergeWithConflicts .ask
      (.container true [("0", .prim .pnull)])
      (.container false [("a", .prim .pnull)]) []).1 = .container true es3 :=
  ((deepMerge_container_mismatch .ask []).1 true false
    [("0", .prim .pnull)] [("a", .prim .pnull)] (by decide)).1
